import Mathlib

/-!
Verification of the crawl orchestration engine of the DataSculpt
(CrawlOps Studio) repository, shallowly embedded in Lean 4.

The embedded code is the `CrawlQueue` class together with the profile
table and the IPC handlers of the Electron main process
(`src/unnamed/part_009`), plus the shared type declarations of the same
file.  The queue is a JavaScript `Map<string, URLItem>` iterated in
insertion order; we model it as a `List URLItem` kept in insertion
order, with the URL as the lookup key.  JavaScript objects used as
open string-keyed records (the per-profile configuration objects and
the `overrides` argument of the `profile:set` handler) are modelled as
association lists `List (String × JValue)` with JavaScript object
spread semantics for merging.
-/

/-- The three profile names of `type ExecutionProfile`. -/
inductive ExecutionProfile where
  | standard
  | safe
  | guided
  deriving DecidableEq, Repr

/-- The seven states of `type URLItemStatus`. -/
inductive URLItemStatus where
  | queued
  | running
  | waiting_captcha
  | waiting_user
  | done
  | failed
  | skipped
  deriving DecidableEq, Repr

/-- The `formats` field of `URLItem`: four optional boolean flags. -/
structure Formats where
  json : Option Bool := none
  md : Option Bool := none
  html : Option Bool := none
  pdf : Option Bool := none
  deriving DecidableEq, Repr

/-- The `outputs` field of `URLItem`: optional storage locations. -/
structure Outputs where
  jsonPath : Option String := none
  mdPath : Option String := none
  singlefileHtmlPath : Option String := none
  pdfPath : Option String := none
  deriving DecidableEq, Repr

/-- `interface URLItem` of the shared types. -/
structure URLItem where
  url : String
  depth : Nat
  status : URLItemStatus
  formats : Formats
  attempts : Nat
  error : Option String := none
  outputs : Option Outputs := none
  profile : ExecutionProfile
  startedAt : Option String := none
  finishedAt : Option String := none
  deriving DecidableEq, Repr

/-- The `options` argument of `CrawlQueue.addItems`; fields the caller
may omit are optional. -/
structure AddOptions where
  depth : Option Nat := none
  formats : Option Formats := none
  profile : Option ExecutionProfile := none
  deriving DecidableEq, Repr

/-- The queue entry literal built inside `CrawlQueue.addItems`:
`depth: options.depth || 0`, `status: 'queued'`,
`formats: options.formats || \x7b\x7d`, `attempts: 0`,
`profile: options.profile || 'standard'`. -/
def mkItem (url : String) (o : AddOptions) : URLItem :=
  { url := url
    depth := o.depth.getD 0
    status := URLItemStatus.queued
    formats := o.formats.getD {}
    attempts := 0
    profile := o.profile.getD ExecutionProfile.standard }

/-- `this.items.has(url)` on the `Map<string, URLItem>`. -/
def hasUrl (q : List URLItem) (u : String) : Bool :=
  q.any (fun i => i.url == u)

/-- One iteration of the `urls.forEach` body of `CrawlQueue.addItems`:
insert a fresh `queued` entry when the URL is not already present,
reporting how many entries were inserted (0 or 1). -/
def addItem (q : List URLItem) (u : String) (o : AddOptions) :
    List URLItem × Nat :=
  if hasUrl q u then (q, 0) else (q ++ [mkItem u o], 1)

/-- `CrawlQueue.addItems(urls, options)`: walk the URL list in order,
inserting each absent URL, and return the updated queue together with
the `enqueued` counter. -/
def addItems : List URLItem → List String → AddOptions → List URLItem × Nat
  | q, [], _ => (q, 0)
  | q, u :: us, o =>
    let r := addItem q u o
    let rest := addItems r.fst us o
    (rest.fst, r.snd + rest.snd)

/-- `interface QueueStats`: the five counters returned by
`CrawlQueue.getStats`. -/
structure QueueStats where
  running : Nat
  waiting : Nat
  done : Nat
  failed : Nat
  total : Nat
  deriving DecidableEq, Repr

/-- `CrawlQueue.getStats()`: filter counts over the entry list. -/
def getStats (q : List URLItem) : QueueStats :=
  { running := (q.filter (fun i => i.status == URLItemStatus.running)).length
    waiting := (q.filter (fun i =>
      i.status == URLItemStatus.waiting_captcha
        || i.status == URLItemStatus.waiting_user)).length
    done := (q.filter (fun i => i.status == URLItemStatus.done)).length
    failed := (q.filter (fun i => i.status == URLItemStatus.failed)).length
    total := q.length }

/-- `CrawlQueue.pauseItem(url)`: when the looked-up entry exists and is
`running`, set it to `waiting_user` and return true; otherwise return
false and leave the queue as it was. -/
def pauseItem (q : List URLItem) (u : String) : List URLItem × Bool :=
  match q.find? (fun i => i.url == u) with
  | some item =>
    if item.status == URLItemStatus.running then
      (q.map (fun i =>
        if i.url == u then { i with status := URLItemStatus.waiting_user }
        else i), true)
    else (q, false)
  | none => (q, false)

/-- `CrawlQueue.resumeItem(url)`: when the looked-up entry exists and is
`waiting_user`, set it back to `queued` and return true; otherwise
return false and leave the queue as it was. -/
def resumeItem (q : List URLItem) (u : String) : List URLItem × Bool :=
  match q.find? (fun i => i.url == u) with
  | some item =>
    if item.status == URLItemStatus.waiting_user then
      (q.map (fun i =>
        if i.url == u then { i with status := URLItemStatus.queued }
        else i), true)
    else (q, false)
  | none => (q, false)

/-- Status of the entry stored under a URL, read off the queue the way
`this.items.get(url)` does. -/
def itemStatus (q : List URLItem) (u : String) : Option URLItemStatus :=
  (q.find? (fun i => i.url == u)).map (fun i => i.status)

/-- The queue-mutating IPC surface: `queue:enqueue`, `queue:pauseItem`,
`queue:resumeItem` and the read-only `queue:status`. -/
inductive QOp where
  | add (urls : List String) (opts : AddOptions)
  | pause (url : String)
  | resume (url : String)
  | stats
  deriving Repr

/-- Effect of one queue operation on the entry map. `getStats` (the
`queue:status` handler) reads but never writes. -/
def applyOp (q : List URLItem) : QOp → List URLItem
  | QOp.add urls opts => (addItems q urls opts).fst
  | QOp.pause u => (pauseItem q u).fst
  | QOp.resume u => (resumeItem q u).fst
  | QOp.stats => q

/-- Queue state reached by a sequence of operations from the initial
empty `Map`. -/
def applyOps (ops : List QOp) : List URLItem :=
  ops.foldl applyOp []

/-- No two entries of the queue share a `url`. -/
def NoDupUrls (q : List URLItem) : Prop :=
  (q.map (fun i => i.url)).Nodup

/-- No entry of the queue is in `running` status. -/
def NoRunning (q : List URLItem) : Prop :=
  ∀ it ∈ q, it.status ≠ URLItemStatus.running

/-- Number of entries currently in a given status — the count a
per-status bucket would have to report. -/
def countStatus (q : List URLItem) (s : URLItemStatus) : Nat :=
  (q.filter (fun i => i.status == s)).length

/-- A primitive JavaScript value stored in one of the open string-keyed
configuration objects. -/
inductive JValue where
  | num (n : Int)
  | bool (b : Bool)
  | str (s : String)
  deriving DecidableEq, Repr

/-- Property lookup `o[k]` on an object modelled as an association
list: first binding wins (binding lists built below never repeat a
key). -/
def objGet (o : List (String × JValue)) (k : String) : Option JValue :=
  (o.find? (fun kv => kv.fst == k)).map (fun kv => kv.snd)

/-- JavaScript property assignment `o[k] = v`: update the binding in
place when the key exists, otherwise append it. -/
def setKey (o : List (String × JValue)) (k : String) (v : JValue) :
    List (String × JValue) :=
  if o.any (fun kv => kv.fst == k) then
    o.map (fun kv => if kv.fst == k then (k, v) else kv)
  else o ++ [(k, v)]

/-- Object spread `\x7b ...a, ...b \x7d`: assign each binding of `b`
over `a` in order, later keys winning. -/
def spreadMerge (a b : List (String × JValue)) : List (String × JValue) :=
  b.foldl (fun acc kv => setKey acc kv.fst kv.snd) a

/-- The `standard` entry of the `profiles` table:
`concurrency: 3, delay: 1000, respectRobots: true`. -/
def standardConfig : List (String × JValue) :=
  [("concurrency", JValue.num 3), ("delay", JValue.num 1000),
   ("respectRobots", JValue.bool true)]

/-- The `safe` entry of the `profiles` table:
`concurrency: 1, delay: 10000, respectRobots: true`. -/
def safeConfig : List (String × JValue) :=
  [("concurrency", JValue.num 1), ("delay", JValue.num 10000),
   ("respectRobots", JValue.bool true)]

/-- The `guided` entry of the `profiles` table:
`concurrency: 1, delay: 2000, respectRobots: true`. -/
def guidedConfig : List (String × JValue) :=
  [("concurrency", JValue.num 1), ("delay", JValue.num 2000),
   ("respectRobots", JValue.bool true)]

/-- The `profiles` record as initialised at module load. -/
def profilesInit : ExecutionProfile → List (String × JValue)
  | ExecutionProfile.standard => standardConfig
  | ExecutionProfile.safe => safeConfig
  | ExecutionProfile.guided => guidedConfig

/-- Mutable module state read and written by the profile IPC handlers:
the active profile name and the three configuration objects. -/
structure ProfileState where
  currentProfile : ExecutionProfile
  standardCfg : List (String × JValue)
  safeCfg : List (String × JValue)
  guidedCfg : List (String × JValue)
  deriving DecidableEq, Repr

/-- The module state right after load: active profile `standard` and
the three shipped configuration objects. -/
def initialProfileState : ProfileState :=
  { currentProfile := ExecutionProfile.standard
    standardCfg := standardConfig
    safeCfg := safeConfig
    guidedCfg := guidedConfig }

/-- Read `profiles[p]` from the module state. -/
def getConfig (st : ProfileState) : ExecutionProfile → List (String × JValue)
  | ExecutionProfile.standard => st.standardCfg
  | ExecutionProfile.safe => st.safeCfg
  | ExecutionProfile.guided => st.guidedCfg

/-- Write `profiles[p] = c` in the module state. -/
def setConfig (st : ProfileState) (p : ExecutionProfile)
    (c : List (String × JValue)) : ProfileState :=
  match p with
  | ExecutionProfile.standard => { st with standardCfg := c }
  | ExecutionProfile.safe => { st with safeCfg := c }
  | ExecutionProfile.guided => { st with guidedCfg := c }

/-- The truthiness test `profiles[profile]` on an arbitrary incoming
string: only the three keys of the `profiles` record are defined. -/
def parseProfile (s : String) : Option ExecutionProfile :=
  if s == "standard" then some ExecutionProfile.standard
  else if s == "safe" then some ExecutionProfile.safe
  else if s == "guided" then some ExecutionProfile.guided
  else none

/-- The string under which a profile is keyed in the `profiles`
record. -/
def profileName : ExecutionProfile → String
  | ExecutionProfile.standard => "standard"
  | ExecutionProfile.safe => "safe"
  | ExecutionProfile.guided => "guided"

/-- The `profile:set` IPC handler: when the name is a key of
`profiles`, switch `currentProfile` to it and, when overrides were
sent, spread them over the active configuration object; the boolean is
true on the `\x7b ok: true \x7d` reply and false on the thrown
`Invalid profile` error. -/
def profileSet (st : ProfileState) (name : String)
    (overrides : Option (List (String × JValue))) : ProfileState × Bool :=
  match parseProfile name with
  | some p =>
    let st1 := { st with currentProfile := p }
    match overrides with
    | some ov => (setConfig st1 p (spreadMerge (getConfig st1 p) ov), true)
    | none => (st1, true)
  | none => (st, false)

/-- The `concurrency` field of a shipped profile configuration, read as
the integer the dispatch gate would consult. -/
def concurrencyOf (p : ExecutionProfile) : Int :=
  match objGet (profilesInit p) "concurrency" with
  | some (JValue.num n) => n
  | _ => 0

/-- Modelled from the spec: the retry policy fields of the active
profile consulted by pipeline-result handling. The repository sources
under the Electron main process contain no dispatch loop and no
pipeline-result handler — only the queue container itself — so the
retry behaviour is taken from §4.1 of the design document, which gives
the budget as `retries` with backoff `delayMs * backoffMultiplier ^
attempts`. -/
structure SpecPolicy where
  retries : Nat
  backoffMultiplier : Nat
  delayMs : Nat
  deriving DecidableEq, Repr

/-- Modelled from the spec: the `safe` profile's retry policy as given
in Scenario D — `retries=2, backoffMultiplier=2, delayMs=8000`. -/
def specSafePolicy : SpecPolicy :=
  { retries := 2, backoffMultiplier := 2, delayMs := 8000 }

/-- Modelled from the spec: dispatch of one entry — §4.1 transitions it
to `running` and increments `attempts`. -/
def specDispatch (it : URLItem) : URLItem :=
  { it with status := URLItemStatus.running, attempts := it.attempts + 1 }

/-- Modelled from the spec: the recoverable-failure arm of
`onPipelineResult` — §4.1 returns the entry to `queued` while within
the retry budget, and once `attempts` exceeds `retries` sets the status
to `failed` with `error` set. -/
def onTransientFailure (pol : SpecPolicy) (msg : String) (it : URLItem) :
    URLItem :=
  if pol.retries < it.attempts then
    { it with status := URLItemStatus.failed, error := some msg }
  else { it with status := URLItemStatus.queued }

/-- Modelled from the spec: one full attempt on a URL that always times
out under the `safe` policy — dispatch followed by a recoverable
timeout failure (Scenario D). -/
def timeoutAttempt (it : URLItem) : URLItem :=
  onTransientFailure specSafePolicy "Navigation timeout" (specDispatch it)

/-! ### Lemmas about the queue container -/

lemma mkItem_url (u : String) (o : AddOptions) : (mkItem u o).url = u := rfl

lemma mkItem_status (u : String) (o : AddOptions) :
    (mkItem u o).status = URLItemStatus.queued := rfl

lemma mkItem_attempts (u : String) (o : AddOptions) :
    (mkItem u o).attempts = 0 := rfl

lemma addItems_cons_fst (q : List URLItem) (u : String) (us : List String)
    (o : AddOptions) :
    (addItems q (u :: us) o).fst = (addItems (addItem q u o).fst us o).fst :=
  rfl

lemma addItems_cons_snd (q : List URLItem) (u : String) (us : List String)
    (o : AddOptions) :
    (addItems q (u :: us) o).snd
      = (addItem q u o).snd + (addItems (addItem q u o).fst us o).snd :=
  rfl

lemma hasUrl_false_iff (q : List URLItem) (u : String) :
    hasUrl q u = false ↔ ∀ i ∈ q, i.url ≠ u := by
  simp [hasUrl]

lemma mem_addItem (q : List URLItem) (u : String) (o : AddOptions)
    (it : URLItem) (h : it ∈ q) : it ∈ (addItem q u o).fst := by
  unfold addItem
  split <;> simp [h]

lemma mem_addItems (q : List URLItem) (urls : List String) (o : AddOptions)
    (it : URLItem) (h : it ∈ q) : it ∈ (addItems q urls o).fst := by
  induction urls generalizing q with
  | nil => exact h
  | cons u us ih =>
    rw [addItems_cons_fst]
    exact ih _ (mem_addItem _ _ _ _ h)

lemma noDupUrls_addItem (q : List URLItem) (u : String) (o : AddOptions)
    (h : NoDupUrls q) : NoDupUrls (addItem q u o).fst := by
  unfold addItem
  split
  · exact h
  · rename_i hu
    have habs : ∀ i ∈ q, i.url ≠ u :=
      (hasUrl_false_iff q u).mp (Bool.eq_false_iff.mpr hu)
    unfold NoDupUrls at *
    rw [List.map_append]
    refine List.nodup_append.mpr ⟨h, by simp, ?_⟩
    intro x hx hx2
    simp [mkItem_url] at hx2
    subst hx2
    simp only [List.mem_map] at hx
    obtain ⟨i, hi, hiu⟩ := hx
    exact habs i hi hiu

lemma noDupUrls_addItems (q : List URLItem) (urls : List String)
    (o : AddOptions) (h : NoDupUrls q) : NoDupUrls (addItems q urls o).fst := by
  induction urls generalizing q with
  | nil => exact h
  | cons u us ih =>
    rw [addItems_cons_fst]
    exact ih _ (noDupUrls_addItem _ _ _ h)

lemma map_update_urls (q : List URLItem) (u : String) (f : URLItem → URLItem)
    (hf : ∀ i, (f i).url = i.url) :
    (q.map (fun i => if i.url == u then f i else i)).map (fun i => i.url)
      = q.map (fun i => i.url) := by
  induction q with
  | nil => rfl
  | cons a t ih =>
    by_cases h : (a.url == u) = true
    · simp only [List.map_cons, if_pos h, hf, ih]
    · simp only [List.map_cons, if_neg h, ih]

lemma noDupUrls_pauseItem (q : List URLItem) (u : String) (h : NoDupUrls q) :
    NoDupUrls (pauseItem q u).fst := by
  unfold pauseItem
  split
  · split
    · unfold NoDupUrls at *
      dsimp only
      rw [map_update_urls q u
        (fun i => { i with status := URLItemStatus.waiting_user })
        (fun i => rfl)]
      exact h
    · exact h
  · exact h

lemma noDupUrls_resumeItem (q : List URLItem) (u : String) (h : NoDupUrls q) :
    NoDupUrls (resumeItem q u).fst := by
  unfold resumeItem
  split
  · split
    · unfold NoDupUrls at *
      dsimp only
      rw [map_update_urls q u
        (fun i => { i with status := URLItemStatus.queued })
        (fun i => rfl)]
      exact h
    · exact h
  · exact h

lemma noDupUrls_applyOp (q : List URLItem) (op : QOp) (h : NoDupUrls q) :
    NoDupUrls (applyOp q op) := by
  cases op with
  | add urls opts => exact noDupUrls_addItems _ _ _ h
  | pause u => exact noDupUrls_pauseItem _ _ h
  | resume u => exact noDupUrls_resumeItem _ _ h
  | stats => exact h

lemma noDupUrls_applyOps (ops : List QOp) : NoDupUrls (applyOps ops) := by
  suffices h : ∀ q, NoDupUrls q → NoDupUrls (ops.foldl applyOp q) by
    exact h [] (by simp [NoDupUrls])
  induction ops with
  | nil => intro q h; exact h
  | cons op t ih => intro q h; exact ih _ (noDupUrls_applyOp _ _ h)

lemma noRunning_addItem (q : List URLItem) (u : String) (o : AddOptions)
    (h : NoRunning q) : NoRunning (addItem q u o).fst := by
  unfold addItem
  split
  · exact h
  · intro it hit
    rcases List.mem_append.mp hit with hq | hnew
    · exact h it hq
    · simp at hnew
      subst hnew
      simp [mkItem_status]

lemma noRunning_addItems (q : List URLItem) (urls : List String)
    (o : AddOptions) (h : NoRunning q) : NoRunning (addItems q urls o).fst := by
  induction urls generalizing q with
  | nil => exact h
  | cons u us ih =>
    rw [addItems_cons_fst]
    exact ih _ (noRunning_addItem _ _ _ h)

lemma noRunning_map_update (q : List URLItem) (u : String)
    (f : URLItem → URLItem) (hf : ∀ i, (f i).status ≠ URLItemStatus.running)
    (h : NoRunning q) :
    NoRunning (q.map (fun i => if i.url == u then f i else i)) := by
  intro it hit
  simp only [List.mem_map] at hit
  obtain ⟨i, hi, hie⟩ := hit
  by_cases hc : (i.url == u) = true
  · rw [← hie, if_pos hc]; exact hf i
  · rw [← hie, if_neg hc]; exact h i hi

lemma noRunning_applyOp (q : List URLItem) (op : QOp) (h : NoRunning q) :
    NoRunning (applyOp q op) := by
  cases op with
  | add urls opts => exact noRunning_addItems _ _ _ h
  | pause u =>
    show NoRunning (pauseItem q u).fst
    unfold pauseItem
    split
    · split
      · exact noRunning_map_update q u _ (fun i => by simp) h
      · exact h
    · exact h
  | resume u =>
    show NoRunning (resumeItem q u).fst
    unfold resumeItem
    split
    · split
      · exact noRunning_map_update q u _ (fun i => by simp) h
      · exact h
    · exact h
  | stats => exact h

lemma noRunning_applyOps (ops : List QOp) : NoRunning (applyOps ops) := by
  suffices h : ∀ q, NoRunning q → NoRunning (ops.foldl applyOp q) by
    exact h [] (by intro it hit; cases hit)
  induction ops with
  | nil => intro q h; exact h
  | cons op t ih => intro q h; exact ih _ (noRunning_applyOp _ _ h)

lemma find?_map_guard (q : List URLItem) (u : String) (f : URLItem → URLItem)
    (hf : ∀ i, (f i).url = i.url) :
    (q.map (fun i => if i.url == u then f i else i)).find?
        (fun i => i.url == u)
      = (q.find? (fun i => i.url == u)).map
          (fun i => if i.url == u then f i else i) := by
  induction q with
  | nil => rfl
  | cons a t ih =>
    have hpa : ((if (a.url == u) = true then f a else a).url == u)
        = (a.url == u) := by
      by_cases h : (a.url == u) = true
      · rw [if_pos h, hf]
      · rw [if_neg h]
    by_cases h : (a.url == u) = true
    · have hL : List.find? (fun i => i.url == u)
          ((if (a.url == u) = true then f a else a)
            :: t.map (fun i => if i.url == u then f i else i))
          = some (if (a.url == u) = true then f a else a) :=
        List.find?_cons_of_pos (p := fun (i : URLItem) => i.url == u) _
          (by dsimp only; rw [hpa]; exact h)
      have hR : List.find? (fun i => i.url == u) (a :: t) = some a :=
        List.find?_cons_of_pos (p := fun (i : URLItem) => i.url == u) _ h
      rw [List.map_cons, hL, hR]
      rfl
    · have hL : List.find? (fun i => i.url == u)
          ((if (a.url == u) = true then f a else a)
            :: t.map (fun i => if i.url == u then f i else i))
          = List.find? (fun i => i.url == u)
              (t.map (fun i => if i.url == u then f i else i)) :=
        List.find?_cons_of_neg (p := fun (i : URLItem) => i.url == u) _
          (by dsimp only; rw [hpa]; exact h)
      have hR : List.find? (fun i => i.url == u) (a :: t)
          = List.find? (fun i => i.url == u) t :=
        List.find?_cons_of_neg (p := fun (i : URLItem) => i.url == u) _ h
      rw [List.map_cons, hL, hR]
      exact ih

lemma pauseItem_of_running (q : List URLItem) (u : String)
    (h : itemStatus q u = some URLItemStatus.running) :
    (pauseItem q u).snd = true
      ∧ itemStatus (pauseItem q u).fst u = some URLItemStatus.waiting_user := by
  obtain ⟨item, hfind, hst⟩ := Option.map_eq_some'.mp h
  have hurl := List.find?_some hfind
  unfold pauseItem
  rw [hfind]
  dsimp only
  rw [if_pos (by rw [hst]; rfl)]
  refine ⟨rfl, ?_⟩
  unfold itemStatus
  dsimp only
  rw [find?_map_guard q u
    (fun i => { i with status := URLItemStatus.waiting_user })
    (fun i => rfl), hfind]
  dsimp only [Option.map_some']
  rw [if_pos hurl]

lemma pauseItem_of_not_running (q : List URLItem) (u : String)
    (st : URLItemStatus) (h : itemStatus q u = some st)
    (hne : st ≠ URLItemStatus.running) : pauseItem q u = (q, false) := by
  obtain ⟨item, hfind, hst⟩ := Option.map_eq_some'.mp h
  unfold pauseItem
  rw [hfind]
  dsimp only
  rw [if_neg (by rw [hst]; simp [hne])]

lemma pauseItem_of_absent (q : List URLItem) (u : String)
    (h : itemStatus q u = none) : pauseItem q u = (q, false) := by
  have hfind : q.find? (fun i => i.url == u) = none := by
    unfold itemStatus at h
    exact Option.map_eq_none'.mp h
  unfold pauseItem
  rw [hfind]

lemma pauseItem_snd_false (q : List URLItem) (u : String)
    (h : (pauseItem q u).snd = false) : (pauseItem q u).fst = q := by
  revert h
  unfold pauseItem
  split
  · split
    · intro h; exact absurd h (by simp)
    · intro _; rfl
  · intro _; rfl

lemma resumeItem_of_waiting_user (q : List URLItem) (u : String)
    (h : itemStatus q u = some URLItemStatus.waiting_user) :
    (resumeItem q u).snd = true
      ∧ itemStatus (resumeItem q u).fst u = some URLItemStatus.queued := by
  obtain ⟨item, hfind, hst⟩ := Option.map_eq_some'.mp h
  have hurl := List.find?_some hfind
  unfold resumeItem
  rw [hfind]
  dsimp only
  rw [if_pos (by rw [hst]; rfl)]
  refine ⟨rfl, ?_⟩
  unfold itemStatus
  dsimp only
  rw [find?_map_guard q u
    (fun i => { i with status := URLItemStatus.queued })
    (fun i => rfl), hfind]
  dsimp only [Option.map_some']
  rw [if_pos hurl]

lemma resumeItem_of_not_waiting_user (q : List URLItem) (u : String)
    (st : URLItemStatus) (h : itemStatus q u = some st)
    (hne : st ≠ URLItemStatus.waiting_user) : resumeItem q u = (q, false) := by
  obtain ⟨item, hfind, hst⟩ := Option.map_eq_some'.mp h
  unfold resumeItem
  rw [hfind]
  dsimp only
  rw [if_neg (by rw [hst]; simp [hne])]

lemma resumeItem_of_absent (q : List URLItem) (u : String)
    (h : itemStatus q u = none) : resumeItem q u = (q, false) := by
  have hfind : q.find? (fun i => i.url == u) = none := by
    unfold itemStatus at h
    exact Option.map_eq_none'.mp h
  unfold resumeItem
  rw [hfind]

lemma resumeItem_snd_false (q : List URLItem) (u : String)
    (h : (resumeItem q u).snd = false) : (resumeItem q u).fst = q := by
  revert h
  unfold resumeItem
  split
  · split
    · intro h; exact absurd h (by simp)
    · intro _; rfl
  · intro _; rfl

lemma addItems_of_present (q : List URLItem) (u : String) (o : AddOptions)
    (h : hasUrl q u = true) : addItems q [u] o = (q, 0) := by
  simp [addItems, addItem, h]

lemma addItems_fresh (v : String) (o : AddOptions) :
    addItems [] [v] o = ([mkItem v o], 1) := by
  simp [addItems, addItem, hasUrl]

lemma hasUrl_mkItem_self (v : String) (o : AddOptions) :
    hasUrl [mkItem v o] v = true := by
  simp [hasUrl, mkItem_url]

/-! ### Lemmas about the configuration-object model -/

lemma objGet_eq_none_iff (o : List (String × JValue)) (k : String) :
    objGet o k = none ↔ ∀ kv ∈ o, kv.fst ≠ k := by
  unfold objGet
  rw [Option.map_eq_none', List.find?_eq_none]
  simp

lemma objGet_map_setKey (o : List (String × JValue)) (k : String) (v : JValue)
    (h : o.any (fun kv => kv.fst == k) = true) :
    objGet (o.map (fun kv => if kv.fst == k then (k, v) else kv)) k
      = some v := by
  induction o with
  | nil => simp at h
  | cons a t ih =>
    by_cases ha : (a.fst == k) = true
    · unfold objGet
      rw [List.map_cons, if_pos ha,
        List.find?_cons_of_pos (p := fun (kv : String × JValue) => kv.fst == k)
          _ (by simp)]
      rfl
    · have h2 : t.any (fun kv => kv.fst == k) = true := by
        rcases List.any_eq_true.mp h with ⟨x, hx, hpx⟩
        rcases List.mem_cons.mp hx with rfl | hxt
        · exact absurd hpx ha
        · exact List.any_eq_true.mpr ⟨x, hxt, hpx⟩
      unfold objGet at ih ⊢
      rw [List.map_cons, if_neg ha,
        List.find?_cons_of_neg (p := fun (kv : String × JValue) => kv.fst == k)
          _ (by dsimp only; exact ha)]
      exact ih h2

lemma objGet_append_key (o : List (String × JValue)) (k : String) (v : JValue)
    (h : o.any (fun kv => kv.fst == k) = false) :
    objGet (o ++ [(k, v)]) k = some v := by
  induction o with
  | nil =>
    unfold objGet
    rw [List.nil_append,
      List.find?_cons_of_pos (p := fun (kv : String × JValue) => kv.fst == k)
        _ (by simp)]
    rfl
  | cons a t ih =>
    simp only [List.any_cons, Bool.or_eq_false_iff] at h
    unfold objGet at ih ⊢
    rw [List.cons_append,
      List.find?_cons_of_neg (p := fun (kv : String × JValue) => kv.fst == k)
        _ (by dsimp only; simp [h.1])]
    exact ih h.2

lemma objGet_setKey_self (o : List (String × JValue)) (k : String)
    (v : JValue) : objGet (setKey o k v) k = some v := by
  unfold setKey
  split
  · rename_i h; exact objGet_map_setKey o k v h
  · rename_i h; exact objGet_append_key o k v (Bool.eq_false_iff.mpr h)

lemma objGet_map_setKey_ne (o : List (String × JValue)) (k k2 : String)
    (v : JValue) (h : k2 ≠ k) :
    objGet (o.map (fun kv => if kv.fst == k then (k, v) else kv)) k2
      = objGet o k2 := by
  induction o with
  | nil => rfl
  | cons a t ih =>
    by_cases ha : (a.fst == k) = true
    · have hak : a.fst = k := eq_of_beq ha
      have hc1 : ¬(((k, v) : String × JValue).fst == k2) = true := by
        simp only [beq_iff_eq]
        exact fun he => h he.symm
      have hc2 : ¬(a.fst == k2) = true := by
        simp only [beq_iff_eq, hak]
        exact fun he => h he.symm
      unfold objGet at ih ⊢
      rw [List.map_cons, if_pos ha,
        List.find?_cons_of_neg (p := fun (kv : String × JValue) => kv.fst == k2)
          _ hc1,
        List.find?_cons_of_neg (p := fun (kv : String × JValue) => kv.fst == k2)
          _ hc2]
      exact ih
    · unfold objGet at ih ⊢
      rw [List.map_cons, if_neg ha]
      by_cases ha2 : (a.fst == k2) = true
      · rw [List.find?_cons_of_pos (p := fun (kv : String × JValue) => kv.fst == k2)
            _ ha2,
          List.find?_cons_of_pos (p := fun (kv : String × JValue) => kv.fst == k2)
            _ ha2]
      · rw [List.find?_cons_of_neg (p := fun (kv : String × JValue) => kv.fst == k2)
            _ ha2,
          List.find?_cons_of_neg (p := fun (kv : String × JValue) => kv.fst == k2)
            _ ha2]
        exact ih

lemma objGet_append_ne (o : List (String × JValue)) (k k2 : String)
    (v : JValue) (h : k2 ≠ k) :
    objGet (o ++ [(k, v)]) k2 = objGet o k2 := by
  induction o with
  | nil =>
    unfold objGet
    rw [List.nil_append,
      List.find?_cons_of_neg (p := fun (kv : String × JValue) => kv.fst == k2)
        _ (by dsimp only; simp only [beq_iff_eq]; exact fun he => h he.symm)]
  | cons a t ih =>
    unfold objGet at ih ⊢
    by_cases ha2 : (a.fst == k2) = true
    · rw [List.cons_append,
        List.find?_cons_of_pos (p := fun (kv : String × JValue) => kv.fst == k2)
          _ ha2,
        List.find?_cons_of_pos (p := fun (kv : String × JValue) => kv.fst == k2)
          _ ha2]
    · rw [List.cons_append,
        List.find?_cons_of_neg (p := fun (kv : String × JValue) => kv.fst == k2)
          _ ha2,
        List.find?_cons_of_neg (p := fun (kv : String × JValue) => kv.fst == k2)
          _ ha2]
      exact ih

lemma objGet_setKey_ne (o : List (String × JValue)) (k k2 : String)
    (v : JValue) (h : k2 ≠ k) : objGet (setKey o k v) k2 = objGet o k2 := by
  unfold setKey
  split
  · exact objGet_map_setKey_ne o k k2 v h
  · exact objGet_append_ne o k k2 v h

lemma spreadMerge_cons (a : List (String × JValue)) (kv : String × JValue)
    (t : List (String × JValue)) :
    spreadMerge a (kv :: t) = spreadMerge (setKey a kv.fst kv.snd) t := rfl

lemma objGet_spreadMerge (b : List (String × JValue)) (k : String)
    (hnd : (b.map Prod.fst).Nodup) (a : List (String × JValue)) :
    objGet (spreadMerge a b) k
      = match objGet b k with
        | some v => some v
        | none => objGet a k := by
  induction b generalizing a with
  | nil => rfl
  | cons kv t ih =>
    rw [List.map_cons, List.nodup_cons] at hnd
    rw [spreadMerge_cons]
    by_cases hk : k = kv.fst
    · have h1 : objGet (kv :: t) k = some kv.snd := by
        unfold objGet
        rw [List.find?_cons_of_pos (p := fun (x : String × JValue) => x.fst == k)
          _ (by dsimp only; simp only [beq_iff_eq]; exact hk.symm)]
        rfl
      have h2 : objGet t k = none := by
        rw [objGet_eq_none_iff]
        intro x hx he
        have hmem : x.fst ∈ t.map Prod.fst := List.mem_map_of_mem Prod.fst hx
        rw [he, hk] at hmem
        exact hnd.1 hmem
      rw [ih hnd.2 (setKey a kv.fst kv.snd), h1, h2]
      show objGet (setKey a kv.fst kv.snd) k = some kv.snd
      rw [hk]
      exact objGet_setKey_self a kv.fst kv.snd
    · have h1 : objGet (kv :: t) k = objGet t k := by
        unfold objGet
        rw [List.find?_cons_of_neg (p := fun (x : String × JValue) => x.fst == k)
          _ (by dsimp only; simp only [beq_iff_eq]; exact fun he => hk he.symm)]
      rw [h1, ih hnd.2 (setKey a kv.fst kv.snd)]
      cases ht : objGet t k with
      | some v => rfl
      | none => exact objGet_setKey_ne a kv.fst k kv.snd hk

/-! ### A status-bucket counting lemma -/

lemma count_waiting_split (q : List URLItem) :
    (q.filter (fun i => i.status == URLItemStatus.waiting_captcha
        || i.status == URLItemStatus.waiting_user)).length
      = (q.filter (fun i => i.status == URLItemStatus.waiting_captcha)).length
        + (q.filter (fun i => i.status == URLItemStatus.waiting_user)).length := by
  induction q with
  | nil => rfl
  | cons a t ih =>
    cases ha : a.status <;>
      simp [List.filter_cons, ha, ih] <;> omega

/-! ### Claim theorems -/

/-- Claim C1: for every sequence of enqueue calls the queue never
contains two entries with the same URL; enqueueing a URL already
present (regardless of its status) leaves that entry untouched and is
excluded from the returned count, so enqueueing the same single URL
twice returns 1 then 0 and the queue holds exactly one entry. -/
theorem enqueue_no_duplicates_and_idempotent (ops : List QOp)
    (q : List URLItem) (urls : List String) (o : AddOptions) (u : String)
    (hu : hasUrl q u = true) :
    NoDupUrls (applyOps ops)
    ∧ (∀ it, it ∈ q → it ∈ (addItems q urls o).fst)
    ∧ addItems q [u] o = (q, 0)
    ∧ (∀ v, addItems [] [v] o = ([mkItem v o], 1)
        ∧ addItems [mkItem v o] [v] o = ([mkItem v o], 0)) := by
  refine ⟨noDupUrls_applyOps ops, fun it h => mem_addItems q urls o it h,
    addItems_of_present q u o hu, fun v => ⟨addItems_fresh v o, ?_⟩⟩
  exact addItems_of_present [mkItem v o] v o (hasUrl_mkItem_self v o)

/-- Witness for claim C1 at a concrete queue already holding the URL. -/
theorem enqueue_no_duplicates_and_idempotent_witness :
    hasUrl [mkItem "https://a.test/" {}] "https://a.test/" = true
    ∧ addItems [mkItem "https://a.test/" {}] ["https://a.test/"] {}
        = ([mkItem "https://a.test/" {}], 0) :=
  ⟨by decide,
    (enqueue_no_duplicates_and_idempotent [] [mkItem "https://a.test/" {}]
      [] {} "https://a.test/" (by decide)).2.2.1⟩

/-- Claim C2: at every state reachable by any sequence of queue
operations (addItems, pauseItem, resumeItem, getStats) the number of
entries in `running` status never exceeds the concurrency value of any
shipped profile — no operation of the queue container ever moves an
entry into `running`, so the running count is identically zero. -/
theorem running_count_le_concurrency (ops : List QOp)
    (p : ExecutionProfile) :
    ((getStats (applyOps ops)).running : Int) ≤ concurrencyOf p := by
  have h0 : (getStats (applyOps ops)).running = 0 := by
    have hnr := noRunning_applyOps ops
    unfold getStats
    dsimp only
    rw [List.length_eq_zero, List.filter_eq_nil_iff]
    intro a ha
    simp only [beq_iff_eq]
    exact hnr a ha
  rw [h0]
  cases p <;> decide

/-- Claim C3 (spec-modelled): on a recoverable pipeline failure the
entry returns to `queued` while `attempts` is within the retry budget,
and once `attempts` exceeds `retries` the status becomes `failed` with
a non-empty error; under the safe policy (retries=2) a URL that always
times out is `failed` with `attempts = 3` after the third attempt. -/
theorem transient_failure_retry_budget (pol : SpecPolicy) (it : URLItem)
    (msg : String) (hmsg : msg ≠ "") :
    ((specDispatch it).attempts ≤ pol.retries →
      (onTransientFailure pol msg (specDispatch it)).status
        = URLItemStatus.queued)
    ∧ (pol.retries < (specDispatch it).attempts →
      (onTransientFailure pol msg (specDispatch it)).status
          = URLItemStatus.failed
        ∧ (onTransientFailure pol msg (specDispatch it)).error = some msg
        ∧ (onTransientFailure pol msg (specDispatch it)).error ≠ some "")
    ∧ (∀ u o,
        (timeoutAttempt (timeoutAttempt (timeoutAttempt (mkItem u o)))).status
            = URLItemStatus.failed
        ∧ (timeoutAttempt (timeoutAttempt (timeoutAttempt
            (mkItem u o)))).attempts = 3
        ∧ (timeoutAttempt (timeoutAttempt (timeoutAttempt
            (mkItem u o)))).error = some "Navigation timeout")
    ∧ specSafePolicy.retries = 2
    ∧ ("Navigation timeout" : String) ≠ "" := by
  refine ⟨?_, ?_, fun u o => ⟨rfl, rfl, rfl⟩, rfl, by decide⟩
  · intro hle
    unfold onTransientFailure
    rw [if_neg (by omega)]
  · intro hgt
    unfold onTransientFailure
    rw [if_pos hgt]
    exact ⟨rfl, rfl, fun he => hmsg (Option.some.inj he)⟩

/-- Witness for claim C3 at a concrete entry and message. -/
theorem transient_failure_retry_budget_witness :
    ("timeout" : String) ≠ ""
    ∧ ((specDispatch (mkItem "https://d.test/" {})).attempts
        ≤ specSafePolicy.retries →
      (onTransientFailure specSafePolicy "timeout"
        (specDispatch (mkItem "https://d.test/" {}))).status
          = URLItemStatus.queued) :=
  ⟨by decide,
    (transient_failure_retry_budget specSafePolicy (mkItem "https://d.test/" {})
      "timeout" (by decide)).1⟩

/-- Counterexample to claim C4: an entry in the `waiting_captcha`
waiting state is not resumed — `resumeItem` returns false, because the
code tests only for `waiting_user`. -/
theorem resume_rejects_waiting_captcha :
    itemStatus [{ mkItem "https://c.test/" {} with
        status := URLItemStatus.waiting_captcha }] "https://c.test/"
      = some URLItemStatus.waiting_captcha
    ∧ (resumeItem [{ mkItem "https://c.test/" {} with
        status := URLItemStatus.waiting_captcha }] "https://c.test/").snd
      = false := by
  decide

/-- Claim C4 (amended): resume succeeds exactly from `waiting_user` —
for an entry in `waiting_user` it returns true and sets the status to
`queued`; for an entry in any other status (`waiting_captcha`
included) and for a URL absent from the queue it returns false and
leaves the queue unchanged. -/
theorem resume_only_from_waiting_user (q : List URLItem) (u : String)
    (st : URLItemStatus) (hst : itemStatus q u = some st) :
    (st = URLItemStatus.waiting_user →
      (resumeItem q u).snd = true
        ∧ itemStatus (resumeItem q u).fst u = some URLItemStatus.queued)
    ∧ (st ≠ URLItemStatus.waiting_user → resumeItem q u = (q, false))
    ∧ (∀ w, itemStatus q w = none → resumeItem q w = (q, false)) :=
  ⟨fun he => resumeItem_of_waiting_user q u (he ▸ hst),
    fun hne => resumeItem_of_not_waiting_user q u st hst hne,
    fun w hw => resumeItem_of_absent q w hw⟩

/-- Witness for claim C4 at a concrete `waiting_user` entry. -/
theorem resume_only_from_waiting_user_witness :
    itemStatus [{ mkItem "https://w.test/" {} with
        status := URLItemStatus.waiting_user }] "https://w.test/"
      = some URLItemStatus.waiting_user
    ∧ (resumeItem [{ mkItem "https://w.test/" {} with
        status := URLItemStatus.waiting_user }] "https://w.test/").snd
      = true :=
  ⟨by decide,
    ((resume_only_from_waiting_user
      [{ mkItem "https://w.test/" {} with
          status := URLItemStatus.waiting_user }] "https://w.test/"
      URLItemStatus.waiting_user (by decide)).1 rfl).1⟩

/-- Counterexample to claim C5: `getStats` carries no `queued` and no
`skipped` bucket — two queues that differ in their queued and skipped
counts produce identical stats, so no component of the stats reports
either count. -/
theorem stats_lack_queued_and_skipped_buckets :
    getStats [mkItem "https://a.test/" {}]
      = getStats [{ mkItem "https://a.test/" {} with
          status := URLItemStatus.skipped }]
    ∧ countStatus [mkItem "https://a.test/" {}] URLItemStatus.queued
      ≠ countStatus [{ mkItem "https://a.test/" {} with
          status := URLItemStatus.skipped }] URLItemStatus.queued
    ∧ countStatus [mkItem "https://a.test/" {}] URLItemStatus.skipped
      ≠ countStatus [{ mkItem "https://a.test/" {} with
          status := URLItemStatus.skipped }] URLItemStatus.skipped := by
  decide

/-- Claim C5 (amended): `getStats` returns exactly the buckets
`running`, `waiting` (the two waiting statuses combined), `done`,
`failed` and `total`; queued and skipped entries are visible only
through `total`; the call is a pure projection leaving the queue
unchanged; after enqueueing one URL the stats are zero everywhere with
`total = 1`. -/
theorem stats_buckets_and_purity (q : List URLItem) (u : String)
    (o : AddOptions) :
    getStats q
      = { running := countStatus q URLItemStatus.running
          waiting := countStatus q URLItemStatus.waiting_captcha
            + countStatus q URLItemStatus.waiting_user
          done := countStatus q URLItemStatus.done
          failed := countStatus q URLItemStatus.failed
          total := q.length }
    ∧ applyOp q QOp.stats = q
    ∧ getStats (addItems [] [u] o).fst
        = { running := 0, waiting := 0, done := 0, failed := 0, total := 1 } := by
  refine ⟨?_, rfl, ?_⟩
  · unfold getStats countStatus
    rw [count_waiting_split q]
  · rw [addItems_fresh u o]
    rfl

/-- Claim C9: pause on a `running` entry returns true and moves it to
`waiting_user`; for an entry in any other status and for a URL absent
from the queue it returns false and no entry is modified. -/
theorem pause_only_from_running (q : List URLItem) (u : String)
    (st : URLItemStatus) (hst : itemStatus q u = some st) :
    (st = URLItemStatus.running →
      (pauseItem q u).snd = true
        ∧ itemStatus (pauseItem q u).fst u = some URLItemStatus.waiting_user)
    ∧ (st ≠ URLItemStatus.running → pauseItem q u = (q, false))
    ∧ (∀ w, itemStatus q w = none → pauseItem q w = (q, false)) :=
  ⟨fun he => pauseItem_of_running q u (he ▸ hst),
    fun hne => pauseItem_of_not_running q u st hst hne,
    fun w hw => pauseItem_of_absent q w hw⟩

/-- Witness for claim C9 at a concrete `running` entry. -/
theorem pause_only_from_running_witness :
    itemStatus [{ mkItem "https://r.test/" {} with
        status := URLItemStatus.running }] "https://r.test/"
      = some URLItemStatus.running
    ∧ (pauseItem [{ mkItem "https://r.test/" {} with
        status := URLItemStatus.running }] "https://r.test/").snd = true :=
  ⟨by decide,
    ((pause_only_from_running
      [{ mkItem "https://r.test/" {} with
          status := URLItemStatus.running }] "https://r.test/"
      URLItemStatus.running (by decide)).1 rfl).1⟩

/-- Claim C10: an entry created by addItems with omitted depth,
formats or profile defaults to depth 0, empty formats and profile
`standard`; every newly created entry has attempts 0 and status
`queued`, and enqueueing an absent URL appends exactly that entry. -/
theorem enqueue_defaults (q : List URLItem) (u : String) (o : AddOptions)
    (hu : hasUrl q u = false) :
    (mkItem u o).attempts = 0
    ∧ (mkItem u o).status = URLItemStatus.queued
    ∧ (o.depth = none → (mkItem u o).depth = 0)
    ∧ (o.formats = none → (mkItem u o).formats = {})
    ∧ (o.profile = none → (mkItem u o).profile = ExecutionProfile.standard)
    ∧ (addItems q [u] o).fst = q ++ [mkItem u o] := by
  refine ⟨rfl, rfl, fun h => by simp [mkItem, h], fun h => by simp [mkItem, h],
    fun h => by simp [mkItem, h], ?_⟩
  simp [addItems, addItem, hu]

/-- Witness for claim C10 at the empty queue. -/
theorem enqueue_defaults_witness :
    hasUrl [] "https://a.test/" = false
    ∧ (addItems [] ["https://a.test/"] {}).fst
        = [] ++ [mkItem "https://a.test/" {}] :=
  ⟨by decide,
    (enqueue_defaults [] "https://a.test/" {} (by decide)).2.2.2.2.2⟩

/-- Counterexample to claim C6: an override whose field name is not a
policy field is not rejected — `profile:set` replies ok and the bogus
field is stored in the profile's configuration object. -/
theorem profile_set_stores_unknown_field :
    (profileSet initialProfileState "standard"
      (some [("turboMode", JValue.bool true)])).snd = true
    ∧ objGet (getConfig (profileSet initialProfileState "standard"
        (some [("turboMode", JValue.bool true)])).fst
        ExecutionProfile.standard) "turboMode"
      = some (JValue.bool true) := by
  decide

/-- Claim C6 (amended): `profile:set` on a defined profile name
performs a shallow merge of every override field — known or unknown —
over the profile's current configuration: the handler validates only
the profile name, never the field names, so an overridden key reads
back as the override value and an untouched key keeps its prior
value. -/
theorem profile_set_shallow_merge (st : ProfileState)
    (p : ExecutionProfile) (ov : List (String × JValue)) (k : String)
    (hnd : (ov.map Prod.fst).Nodup) :
    (profileSet st (profileName p) (some ov)).snd = true
    ∧ (∀ v, objGet ov k = some v →
        objGet (getConfig (profileSet st (profileName p) (some ov)).fst p) k
          = some v)
    ∧ (objGet ov k = none →
        objGet (getConfig (profileSet st (profileName p) (some ov)).fst p) k
          = objGet (getConfig st p) k) := by
  have hparse : parseProfile (profileName p) = some p := by
    cases p <;> rfl
  have hc : getConfig (profileSet st (profileName p) (some ov)).fst p
      = spreadMerge (getConfig st p) ov := by
    unfold profileSet
    rw [hparse]
    cases p <;> rfl
  have hmain := objGet_spreadMerge ov k hnd (getConfig st p)
  refine ⟨?_, ?_, ?_⟩
  · unfold profileSet
    rw [hparse]
  · intro v hv
    rw [hc, hmain, hv]
  · intro hv
    rw [hc, hmain, hv]

/-- Witness for claim C6 at a concrete override list. -/
theorem profile_set_shallow_merge_witness :
    (([("concurrency", JValue.num 5)].map
        (Prod.fst (α := String) (β := JValue))).Nodup)
    ∧ (profileSet initialProfileState "safe"
        (some [("concurrency", JValue.num 5)])).snd = true :=
  ⟨by decide,
    (profile_set_shallow_merge initialProfileState ExecutionProfile.safe
      [("concurrency", JValue.num 5)] "concurrency" (by decide)).1⟩

/-- Claim C7: the three canonical profile names are always defined; a
`profile:set` naming an undefined profile fails and leaves the whole
profile state unchanged; pause and resume calls that return false
leave the queue unchanged. -/
theorem invalid_inputs_do_not_mutate (st : ProfileState) (name : String)
    (ov : Option (List (String × JValue))) (q : List URLItem)
    (u w : String) (hname : parseProfile name = none)
    (hp : (pauseItem q u).snd = false)
    (hr : (resumeItem q w).snd = false) :
    (parseProfile "standard").isSome = true
    ∧ (parseProfile "safe").isSome = true
    ∧ (parseProfile "guided").isSome = true
    ∧ profileSet st name ov = (st, false)
    ∧ (pauseItem q u).fst = q
    ∧ (resumeItem q w).fst = q := by
  refine ⟨by decide, by decide, by decide, ?_,
    pauseItem_snd_false q u hp, resumeItem_snd_false q w hr⟩
  unfold profileSet
  rw [hname]

/-- Witness for claim C7 at a concrete undefined profile name. -/
theorem invalid_inputs_do_not_mutate_witness :
    parseProfile "turbo" = none
    ∧ profileSet initialProfileState "turbo" none
        = (initialProfileState, false) :=
  ⟨by decide,
    (invalid_inputs_do_not_mutate initialProfileState "turbo" none []
      "https://x.test/" "https://y.test/" (by decide) (by decide)
      (by decide)).2.2.2.1⟩

/-- Counterexample to claim C8: the shipped `safe` profile carries no
`retries`, no `backoffMultiplier` and no `delayMs` field at all, and
its delay field is 10000, not the 8000 the claim gives. -/
theorem safe_profile_missing_retry_fields :
    objGet (profilesInit ExecutionProfile.safe) "retries" = none
    ∧ objGet (profilesInit ExecutionProfile.safe) "backoffMultiplier" = none
    ∧ objGet (profilesInit ExecutionProfile.safe) "delayMs" = none
    ∧ objGet (profilesInit ExecutionProfile.safe) "delay"
      = some (JValue.num 10000) := by
  decide

/-- Claim C8 (amended): each shipped canonical profile carries exactly
the policy fields `concurrency`, `delay` and `respectRobots` — its key
list is precisely those three keys, and every other key (in
particular `retries`, `backoffMultiplier` and `delayMs`, stated both
explicitly for all three profiles and as a closure over arbitrary
keys) reads back as absent — with standard at concurrency 3 and delay
1000, safe at concurrency 1 and delay 10000, guided at concurrency 1
and delay 2000, all with respectRobots true. -/
theorem canonical_profiles_shipped_fields :
    (objGet (profilesInit ExecutionProfile.standard) "concurrency"
        = some (JValue.num 3)
      ∧ objGet (profilesInit ExecutionProfile.standard) "delay"
        = some (JValue.num 1000)
      ∧ objGet (profilesInit ExecutionProfile.standard) "respectRobots"
        = some (JValue.bool true))
    ∧ (objGet (profilesInit ExecutionProfile.safe) "concurrency"
        = some (JValue.num 1)
      ∧ objGet (profilesInit ExecutionProfile.safe) "delay"
        = some (JValue.num 10000)
      ∧ objGet (profilesInit ExecutionProfile.safe) "respectRobots"
        = some (JValue.bool true))
    ∧ (objGet (profilesInit ExecutionProfile.guided) "concurrency"
        = some (JValue.num 1)
      ∧ objGet (profilesInit ExecutionProfile.guided) "delay"
        = some (JValue.num 2000)
      ∧ objGet (profilesInit ExecutionProfile.guided) "respectRobots"
        = some (JValue.bool true))
    ∧ (objGet (profilesInit ExecutionProfile.standard) "retries" = none
      ∧ objGet (profilesInit ExecutionProfile.safe) "retries" = none
      ∧ objGet (profilesInit ExecutionProfile.guided) "retries" = none)
    ∧ (objGet (profilesInit ExecutionProfile.standard) "backoffMultiplier"
        = none
      ∧ objGet (profilesInit ExecutionProfile.safe) "backoffMultiplier"
        = none
      ∧ objGet (profilesInit ExecutionProfile.guided) "backoffMultiplier"
        = none)
    ∧ (objGet (profilesInit ExecutionProfile.standard) "delayMs" = none
      ∧ objGet (profilesInit ExecutionProfile.safe) "delayMs" = none
      ∧ objGet (profilesInit ExecutionProfile.guided) "delayMs" = none)
    ∧ ((profilesInit ExecutionProfile.standard).map Prod.fst
        = ["concurrency", "delay", "respectRobots"]
      ∧ (profilesInit ExecutionProfile.safe).map Prod.fst
        = ["concurrency", "delay", "respectRobots"]
      ∧ (profilesInit ExecutionProfile.guided).map Prod.fst
        = ["concurrency", "delay", "respectRobots"])
    ∧ (∀ p : ExecutionProfile, ∀ k : String,
        k ≠ "concurrency" → k ≠ "delay" → k ≠ "respectRobots" →
        objGet (profilesInit p) k = none) := by
  refine ⟨by decide, by decide, by decide, by decide, by decide,
    by decide, by decide, ?_⟩
  intro p k h1 h2 h3
  rw [objGet_eq_none_iff]
  intro kv hkv
  cases p <;>
    simp only [profilesInit, standardConfig, safeConfig, guidedConfig,
      List.mem_cons, List.mem_singleton, List.not_mem_nil, or_false] at hkv <;>
    rcases hkv with rfl | rfl | rfl <;>
    first
      | exact fun he => h1 he.symm
      | exact fun he => h2 he.symm
      | exact fun he => h3 he.symm
